import Mathlib

/-!
Shallow embedding of the crypto router of bruncher/bruncher-api
(`src/unnamed/part_000`): the throttled transport, the retrying fetcher
with its 404 range fallback, the snapshot cache (`fetchCoinData`), the
pair-comparison cache of the `/compare` route with its single-flight
locks, the timeframe aligner, and the snapshot-row normalization.

Upstream (CoinGecko) nondeterminism is modelled by an oracle
`Nat → UpResult` giving the outcome of the n-th upstream transport call,
and by a `jitter : Nat → Nat` function giving the sampled value of
`Math.random() * 300` before the n-th retry.  Clock readings (`Date.now()`)
are explicit `Nat` parameters.  Promises that are run to completion are
modelled by their settled value (`Except`).
-/

set_option linter.unusedVariables false

/-- Constant `CACHE_DURATION = 15 * 60 * 1000` (snapshot TTL, ms). -/
def CACHE_DURATION : Nat := 15 * 60 * 1000

/-- Constant `COMPARE_CACHE_DURATION = 60 * 1000` (pair-cache TTL, ms). -/
def COMPARE_CACHE_DURATION : Nat := 60 * 1000

/-- Constant `CHART_THROTTLE_MS = 3000` (minimum spacing of throttled calls, ms). -/
def CHART_THROTTLE_MS : Int := 3000

/-- Whether an upstream HTTP call went through `throttledFetch` or was a
bare `axios.get`. -/
inductive Transport
  | throttled
  | direct
deriving DecidableEq, Repr

/-- The `days` query parameter of a market-chart call: the canonical
one-year range `days: 365` or the fallback sentinel `days: "max"`. -/
inductive Days
  | d365
  | dmax
deriving DecidableEq, Repr

/-- One upstream market-chart call as issued by the code: which transport
carried it and which range parameter it used. -/
structure Call where
  transport : Transport
  days : Days
deriving DecidableEq, Repr

/-- Outcome of one upstream call: a parsed body (the `prices` array of
`resp.data`, timestamp/price pairs) or an axios error carrying
`err.response?.status` (`none` models timeouts / connection errors with no
HTTP status). -/
inductive UpResult
  | ok (prices : List (Nat × Int))
  | err (status : Option Nat)
deriving DecidableEq, Repr

/-- Timing of `throttledFetch`: the wait computed before issuing a call,
`Math.max(0, CHART_THROTTLE_MS - (Date.now() - lastMarketChartFetch))`. -/
def throttleWait (now lastCall : Int) : Int :=
  max 0 (CHART_THROTTLE_MS - (now - lastCall))

/-- Timing of `throttledFetch`: the instant the call is actually issued and
the updated `lastMarketChartFetch` (set to `Date.now()` after the wait). -/
def throttledCallTime (now lastCall : Int) : Int × Int :=
  let t := now + throttleWait now lastCall
  (t, t)

instance exceptDecEq {ε α : Type} [DecidableEq ε] [DecidableEq α] :
    DecidableEq (Except ε α) := fun a b =>
  match a, b with
  | .ok x, .ok y =>
    if h : x = y then isTrue (by rw [h])
    else isFalse (fun hh => h (by injection hh))
  | .error x, .error y =>
    if h : x = y then isTrue (by rw [h])
    else isFalse (fun hh => h (by injection hh))
  | .ok _, .error _ => isFalse (fun hh => Except.noConfusion hh)
  | .error _, .ok _ => isFalse (fun hh => Except.noConfusion hh)

/-- Result of a `fetchWithRetry` run: the settled value, the list of
upstream calls it issued (in order), the backoff delays applied before
each retry, and the index of the next unconsumed oracle entry. -/
structure FetchOut where
  result : Except (Option Nat) (List (Nat × Int))
  calls : List Call
  delays : List Nat
  next : Nat
deriving DecidableEq, Repr

/-- The retry guard of `fetchWithRetry`:
`isRateLimit || isNetwork`, i.e. `status === 429` or no status at all. -/
def retriable (status : Option Nat) : Bool :=
  status == some 429 || status == none

/-- The tail of `fetchWithRetry` once no retry is possible: the one-shot
`days=max` fallback on a 404 for the one-year range (issued through
`throttledFetch`), which on its own failure rethrows the original error;
any other failure is rethrown directly. -/
def fetchFinalFailure (oracle : Nat → UpResult) (days : Days)
    (status : Option Nat) (idx : Nat) : FetchOut :=
  if status == some 404 && days == Days.d365 then
    match oracle (idx + 1) with
    | .ok prices => ⟨.ok prices, [⟨.throttled, days⟩, ⟨.throttled, .dmax⟩], [], idx + 2⟩
    | .err _ => ⟨.error status, [⟨.throttled, days⟩, ⟨.throttled, .dmax⟩], [], idx + 2⟩
  else
    ⟨.error status, [⟨.throttled, days⟩], [], idx + 1⟩

/-- Body of `fetchWithRetry`, with the bound `attempt < 30` carried as
explicit fuel (`fuel = 30 - attempt`, kept in sync by the wrapper below)
so that the recursion is structural.  Every call it issues itself goes
through `throttledFetch`. -/
def fetchWithRetryGo (oracle : Nat → UpResult) (jitter : Nat → Nat) (days : Days) :
    Nat → Nat → Nat → FetchOut
  | 0, _, idx =>
    match oracle idx with
    | .ok prices => ⟨.ok prices, [⟨.throttled, days⟩], [], idx + 1⟩
    | .err status => fetchFinalFailure oracle days status idx
  | fuel + 1, attempt, idx =>
    match oracle idx with
    | .ok prices => ⟨.ok prices, [⟨.throttled, days⟩], [], idx + 1⟩
    | .err status =>
      if retriable status then
        -- retry path: delay `min(500 * attempt, 8000) + Math.random() * 300`
        let d := min (500 * attempt) 8000 + jitter attempt
        let rest := fetchWithRetryGo oracle jitter days fuel (attempt + 1) (idx + 1)
        ⟨rest.result, ⟨.throttled, days⟩ :: rest.calls, d :: rest.delays, rest.next⟩
      else fetchFinalFailure oracle days status idx

/-- Model of `fetchWithRetry(url, params, attempt)`: retries on 429/network failures
while `attempt < 30`, then applies the one-shot `days=max` fallback on a
404 for the one-year range, else propagates the failure. -/
def fetchWithRetry (oracle : Nat → UpResult) (jitter : Nat → Nat) (days : Days)
    (attempt idx : Nat) : FetchOut :=
  fetchWithRetryGo oracle jitter days (30 - attempt) attempt idx

/-- The per-coin fetch of the `/compare` route: `fetchWithRetry` with the
one-year params, and on a surfaced 404 one more bare `axios.get` with
`days: "max"` (unthrottled, un-retried); any other surfaced failure is
swallowed, leaving the coin's data `null`. -/
def routeCoinFetch (oracle : Nat → UpResult) (jitter : Nat → Nat) (idx : Nat) :
    Option (List (Nat × Int)) × List Call × Nat :=
  let out := fetchWithRetry oracle jitter .d365 1 idx
  match out.result with
  | .ok prices => (some prices, out.calls, out.next)
  | .error status =>
    if status == some 404 then
      match oracle out.next with
      | .ok prices => (some prices, out.calls ++ [⟨.direct, .dmax⟩], out.next + 1)
      | .err _ => (none, out.calls ++ [⟨.direct, .dmax⟩], out.next + 1)
    else (none, out.calls, out.next)

/-- The keys of the `Map` built from a series, in insertion order (first
occurrence of each timestamp), as `[...map.keys()]` iterates them. -/
def keysFirst : List (Nat × Int) → List Nat
  | [] => []
  | (t, _) :: rest => t :: (keysFirst rest).filter (fun s => s != t)

/-- Lookup in the `Map` of a series: the value of the last pair with the given
timestamp (later insertions overwrite earlier ones). -/
def mapGetLast (l : List (Nat × Int)) (t : Nat) : Option Int :=
  (l.reverse.find? (fun p => p.1 == t)).map (fun p => p.2)

/-- Model of `alignTimeframes(series1, series2)`: if either input is nullish both
are returned unmodified; otherwise both series are restricted to the
timestamps present in both, in the order the first series lists them. -/
def alignTimeframes (series1 series2 : Option (List (Nat × Int))) :
    Option (List (Nat × Int)) × Option (List (Nat × Int)) :=
  match series1, series2 with
  | some l1, some l2 =>
    let commonTimestamps := (keysFirst l1).filter (fun t => (l2.map Prod.fst).contains t)
    (some (commonTimestamps.map (fun t => (t, (mapGetLast l1 t).getD 0))),
     some (commonTimestamps.map (fun t => (t, (mapGetLast l2 t).getD 0))))
  | _, _ => (series1, series2)

/-- Lexicographic comparison of char sequences by code point, the order
JavaScript's default `Array.prototype.sort` uses on these ASCII ids. -/
def charListLtB : List Char → List Char → Bool
  | [], [] => false
  | [], _ :: _ => true
  | _ :: _, [] => false
  | a :: as, b :: bs =>
    if a.toNat < b.toNat then true
    else if b.toNat < a.toNat then false
    else charListLtB as bs

/-- String comparison used by `[coin1, coin2].sort()`. -/
def strLtB (a b : String) : Bool := charListLtB a.data b.data

/-- The `/compare` cache key: `[coin1, coin2].sort().join("_")` — the two
ids as given (no case folding), ordered lexicographically. -/
def pairKey (coin1 coin2 : String) : String :=
  if strLtB coin2 coin1 then coin2 ++ "_" ++ coin1 else coin1 ++ "_" ++ coin2

/-- A `/compare` result object `{coin1, coin2, data, warning?}`; `data` is
the list of `{name, prices}` entries, `warning` the optional annotation. -/
structure PairResult where
  coin1 : String
  coin2 : String
  data : List (String × List (Nat × Int))
  warning : Option String
deriving DecidableEq, Repr

/-- Model of `safePlaceholder(coin1, coin2)`. -/
def safePlaceholder (coin1 coin2 : String) : PairResult :=
  { coin1 := coin1, coin2 := coin2,
    data := [(coin1, []), (coin2, [])],
    warning := some "No data available — using placeholder" }

/-- Construction of the comparison result inside the `/compare` promise:
throws when both coin fetches failed, otherwise aligns the two series when
both are present and builds `{coin1, coin2, data, ...}`.  The local
`warning` variable of the source is initialised to `null` and never
reassigned on this path, so the spread `...(warning ? { warning } : {})`
never adds a field. -/
def mkCompareResult (coin1 coin2 : String)
    (data1 data2 : Option (List (Nat × Int))) : Except Unit PairResult :=
  match data1, data2 with
  | none, none => .error ()
  | _, _ =>
    let aligned1 := data1.getD []
    let aligned2 := data2.getD []
    let ali :=
      if data1.isSome && data2.isSome then
        alignTimeframes (some aligned1) (some aligned2)
      else (some aligned1, some aligned2)
    .ok { coin1 := coin1, coin2 := coin2,
          data := (if data1.isSome then [(coin1, ali.1.getD [])] else [])
               ++ (if data2.isSome then [(coin2, ali.2.getD [])] else []),
          warning := none }

/-- The `/compare` fetch promise run to completion: fetch coin1, wait the
randomized inter-coin delay, fetch coin2, then build the result. -/
def comparePromiseRun (oracle : Nat → UpResult) (jitter : Nat → Nat)
    (coin1 coin2 : String) (idx : Nat) :
    Except Unit PairResult × List Call × Nat :=
  let r1 := routeCoinFetch oracle jitter idx
  let r2 := routeCoinFetch oracle jitter r1.2.2
  (mkCompareResult coin1 coin2 r1.1 r2.1, r1.2.1 ++ r2.2.1, r2.2.2)

/-- What a `/compare` request sends back: `res.json` of a result object,
or `res.status(500).json({ error: ... })`. -/
inductive Response
  | ok (r : PairResult)
  | errObj (msg : String)
deriving DecidableEq, Repr

/-- Whether a response is a well-formed result (not an error object). -/
def Response.isOk : Response → Bool
  | .ok _ => true
  | .errObj _ => false

/-- JS-object-style assignment on a string-keyed association list. -/
def upsert {α : Type} (key : String) (v : α) :
    List (String × α) → List (String × α)
  | [] => [(key, v)]
  | (k, w) :: rest =>
    if k == key then (k, v) :: rest else (k, w) :: upsert key v rest

/-- JS-object-style lookup on a string-keyed association list. -/
def lookupKey {α : Type} (key : String) (l : List (String × α)) : Option α :=
  (l.find? (fun p => p.1 == key)).map (fun p => p.2)

/-- The mutable module state used by the `/compare` route: `compareCache`
(key → `{timestamp, data}`), `compareLocks` (key → settled promise value),
`retryQueue`, and the position reached in the upstream oracle stream. -/
structure CmpState where
  compareCache : List (String × Nat × PairResult)
  compareLocks : List (String × Except Unit PairResult)
  retryQueue : List (String × String × Nat)
  callIdx : Nat
deriving DecidableEq, Repr

/-- The cache-miss part of the `/compare` handler: join an existing lock
(resolving with its data or answering 500 on rejection), or install a lock,
run the fetch promise, and on rejection enqueue a background retry and fall
back to the stale cache entry or the placeholder.  Nothing ever deletes
`compareLocks[key]`. -/
def compareMiss (oracle : Nat → UpResult) (jitter : Nat → Nat) (now : Nat)
    (coin1 coin2 key : String) (st : CmpState) :
    Response × CmpState × List Call :=
  match lookupKey key st.compareLocks with
  | some (.ok r) => (.ok r, st, [])
  | some (.error _) => (.errObj "Failed to fetch comparison data", st, [])
  | none =>
    match comparePromiseRun oracle jitter coin1 coin2 st.callIdx with
    | (.ok r, cs, i2) =>
      (.ok r,
       ⟨upsert key (now, r) st.compareCache, upsert key (.ok r) st.compareLocks,
        st.retryQueue, i2⟩, cs)
    | (.error _, cs, i2) =>
      let st2 : CmpState :=
        ⟨st.compareCache, upsert key (.error ()) st.compareLocks,
         st.retryQueue ++ [(coin1, coin2, 1)], i2⟩
      match lookupKey key st.compareCache with
      | some (_, d) =>
        (.ok { d with warning := some "Served stale cached data due to error" }, st2, cs)
      | none => (.ok (safePlaceholder coin1 coin2), st2, cs)

/-- One `/compare` request (`getComparison`), run to completion: serve a
fresh cache entry, else go through the lock / fetch logic. -/
def compareHandler (oracle : Nat → UpResult) (jitter : Nat → Nat) (now : Nat)
    (coin1 coin2 : String) (st : CmpState) :
    Response × CmpState × List Call :=
  let key := pairKey coin1 coin2
  match lookupKey key st.compareCache with
  | some (ts, d) =>
    if now - ts < COMPARE_CACHE_DURATION then (.ok d, st, [])
    else compareMiss oracle jitter now coin1 coin2 key st
  | none => compareMiss oracle jitter now coin1 coin2 key st

/-- A JavaScript value as it can occur in a parsed upstream JSON body,
together with `undefined` (missing-property reads yield it). -/
inductive Js
  | undefined
  | null
  | num (n : Int)
  | boolean (b : Bool)
  | str (s : String)
  | obj (fields : List (String × Js))

/-- Property read on a JS object's field list: the value of the last
binding of the key, or `undefined` when the key is absent. -/
def jsField (fields : List (String × Js)) (k : String) : Js :=
  ((fields.reverse.find? (fun p => p.1 == k)).map (fun p => p.2)).getD .undefined

/-- Property access `v[k]`: throws a TypeError on `null`/`undefined`,
yields `undefined` on other primitives, looks the key up on objects. -/
def jsGet : Js → String → Except Unit Js
  | .undefined, _ => .error ()
  | .null, _ => .error ()
  | .obj fields, k => .ok (jsField fields k)
  | _, _ => .ok .undefined

/-- JS truthiness. -/
def Js.truthy : Js → Bool
  | .undefined => false
  | .null => false
  | .num n => n != 0
  | .boolean b => b
  | .str s => s != ""
  | .obj _ => true

/-- Evaluation of `v || null`. -/
def orNull (v : Js) : Js := if v.truthy then v else .null

/-- Evaluation of `v ?? null`. -/
def nullish (v : Js) : Js :=
  match v with
  | .undefined => .null
  | .null => .null
  | x => x

/-- A normalized snapshot row as built by `fetchCoinData`. -/
structure NormRow where
  id : Js
  symbol : Js
  name : Js
  current_price : Js
  market_cap : Js
  total_volume : Js
  price_change_percentage_24h : Js

/-- Normalization of one market-list row:
`{ id: coin.id || null, ..., current_price: coin.current_price ?? null, ... }`.
Each property read can throw when `coin` itself is `null`/`undefined`. -/
def normalizeRow (coin : Js) : Except Unit NormRow := do
  let i ← jsGet coin "id"
  let sy ← jsGet coin "symbol"
  let na ← jsGet coin "name"
  let cp ← jsGet coin "current_price"
  let mc ← jsGet coin "market_cap"
  let tv ← jsGet coin "total_volume"
  let pc ← jsGet coin "price_change_percentage_24h"
  pure { id := orNull i, symbol := orNull sy, name := orNull na,
         current_price := nullish cp, market_cap := nullish mc,
         total_volume := nullish tv, price_change_percentage_24h := nullish pc }

/-- Model of `response.data.map(...)` normalization: the first row whose property reads
throw aborts the whole map. -/
def normalizeRows : List Js → Except Unit (List NormRow)
  | [] => .ok []
  | r :: rest =>
    match normalizeRow r with
    | .error e => .error e
    | .ok nr =>
      match normalizeRows rest with
      | .error e => .error e
      | .ok nrs => .ok (nr :: nrs)

/-- The snapshot cache's module state: `cache`, `lastFetch`, and the
global in-flight marker `fetchPromise` (holding, when present, the value
the pending refresh settles to). -/
structure SnapState where
  cache : Option (List NormRow)
  lastFetch : Nat
  fetchPromise : Option (Except Unit (List NormRow))

/-- Result of one `fetchCoinData` run: the settled value, the state left
behind, and the upstream calls issued (each a bare `axios.get`). -/
structure SnapOut where
  result : Except Unit (List NormRow)
  state : SnapState
  calls : List Transport

/-- The refresh-or-join part of `fetchCoinData`: join the in-flight
promise if any, else issue the (unthrottled) market-list call, normalize
and store on success, fall back to the stale cache or rethrow on failure;
the `finally` clears `fetchPromise` on every path. -/
def snapRefresh (now : Nat) (upstream : Except Unit (List Js)) (st : SnapState) :
    SnapOut :=
  match st.fetchPromise with
  | some p => ⟨p, st, []⟩
  | none =>
    match upstream with
    | .ok rows =>
      match normalizeRows rows with
      | .ok nr => ⟨.ok nr, ⟨some nr, now, none⟩, [.direct]⟩
      | .error _ =>
        match st.cache with
        | some c => ⟨.ok c, ⟨some c, st.lastFetch, none⟩, [.direct]⟩
        | none => ⟨.error (), ⟨none, st.lastFetch, none⟩, [.direct]⟩
    | .error _ =>
      match st.cache with
      | some c => ⟨.ok c, ⟨some c, st.lastFetch, none⟩, [.direct]⟩
      | none => ⟨.error (), ⟨none, st.lastFetch, none⟩, [.direct]⟩

/-- Model of `fetchCoinData(force)` (`getSnapshot`): serve the cache when it is
present, recent enough and not forced; otherwise refresh or join. -/
def fetchCoinData (force : Bool) (now : Nat) (upstream : Except Unit (List Js))
    (st : SnapState) : SnapOut :=
  if force = false ∧ st.cache.isSome = true ∧ now - st.lastFetch < CACHE_DURATION then
    ⟨.ok (st.cache.getD []), st, []⟩
  else snapRefresh now upstream st

/-! ### Concrete scenarios used by the theorems below -/

/-- Snapshot-cache state with a cache refreshed at time 0 and no
in-flight refresh. -/
def stFresh : SnapState := ⟨some [], 0, none⟩

/-- Snapshot-cache state with a stale cache and an in-flight refresh. -/
def stJoin : SnapState := ⟨some [], 0, some (.ok [])⟩

/-- Whether an `Except` settled successfully. -/
def isOkE {ε α : Type} : Except ε α → Bool
  | .ok _ => true
  | .error _ => false

/-- Well-formed snapshot row with some numeric fields missing. -/
def goodRow : Js := .obj [("id", .str "bitcoin"), ("current_price", .num 50000)]

/-- Zero jitter sampling. -/
def jitter0 : Nat → Nat := fun _ => 0

/-- Upstream that always succeeds with a two-point series. -/
def okOracle : Nat → UpResult := fun _ => .ok [(1, 10), (2, 20)]

/-- Upstream that always fails with HTTP 500 (non-retriable). -/
def errOracle : Nat → UpResult := fun _ => .err (some 500)

/-- Upstream where the first call fails with HTTP 500 and every later
call succeeds, so the coin1 fetch fails and the coin2 fetch succeeds. -/
def mixedOracle : Nat → UpResult :=
  fun i => if i == 0 then .err (some 500) else .ok [(1, 10)]

/-- Initial (empty) compare-route state. -/
def cmpSt0 : CmpState := ⟨[], [], [], 0⟩

/-- First `/compare` request for bitcoin/ethereum at t = 0 against a
healthy upstream. -/
def cmpOkRun1 : Response × CmpState × List Call :=
  compareHandler okOracle jitter0 0 "bitcoin" "ethereum" cmpSt0

/-- Second request for the same pair at t = 61 s, past the 60 s TTL. -/
def cmpOkRun2 : Response × CmpState × List Call :=
  compareHandler okOracle jitter0 61000 "bitcoin" "ethereum" cmpOkRun1.2.1

/-- First `/compare` request against an upstream that always fails 500. -/
def cmpErrRun1 : Response × CmpState × List Call :=
  compareHandler errOracle jitter0 0 "bitcoin" "ethereum" cmpSt0

/-- Later request for the same pair, joining the settled failed lock. -/
def cmpErrRun2 : Response × CmpState × List Call :=
  compareHandler errOracle jitter0 1000 "bitcoin" "ethereum" cmpErrRun1.2.1

/-- Cached pair result used to exercise the stale fallback. -/
def demoResult : PairResult := ⟨"bitcoin", "ethereum", [("bitcoin", [(1, 10)])], none⟩

/-- Compare state holding only a stale cache entry for bitcoin/ethereum. -/
def cmpStStale : CmpState := ⟨[("bitcoin_ethereum", 0, demoResult)], [], [], 0⟩

/-! ### Helper lemmas about the retrying fetcher -/

/-- The function `fetchFinalFailure` applies no backoff delay. -/
theorem fetchFinalFailure_delays (oracle : Nat → UpResult) (days : Days)
    (status : Option Nat) (idx : Nat) :
    (fetchFinalFailure oracle days status idx).delays = [] := by
  simp only [fetchFinalFailure]
  split
  · rcases h2 : oracle (idx + 1) with p | s <;> simp [h2]
  · rfl

/-- Every call `fetchFinalFailure` issues goes through the throttled
transport. -/
theorem fetchFinalFailure_all_throttled (oracle : Nat → UpResult) (days : Days)
    (status : Option Nat) (idx : Nat) :
    ∀ c ∈ (fetchFinalFailure oracle days status idx).calls,
      c.transport = Transport.throttled := by
  intro c hc
  simp only [fetchFinalFailure] at hc
  rcases hif : (status == some 404 && days == Days.d365) with _ | _
  · simp [hif] at hc
    simp [hc]
  · simp only [hif, if_true] at hc
    rcases h2 : oracle (idx + 1) with p2 | s2 <;> simp [h2] at hc <;>
      rcases hc with hc | hc <;> simp [hc]

/-- Unless the failing status is the 404/one-year combination,
`fetchFinalFailure` just rethrows after its single call. -/
theorem fetchFinalFailure_cases (oracle : Nat → UpResult) (days : Days)
    (s : Nat) (idx : Nat) :
    (s = 404 ∧ days = Days.d365) ∨
      fetchFinalFailure oracle days (some s) idx
        = ⟨.error (some s), [⟨.throttled, days⟩], [], idx + 1⟩ := by
  by_cases h404 : s = 404 ∧ days = Days.d365
  · exact Or.inl h404
  · right
    have hif : ¬ (((some s == some 404) && (days == Days.d365)) = true) := by
      intro h
      apply h404
      have := (Bool.and_eq_true _ _).mp h
      exact ⟨by simpa using this.1, by simpa using this.2⟩
    rw [fetchFinalFailure, if_neg hif]

/-- Against an upstream that always answers 429, `fetchWithRetryGo` makes
`fuel + 1` throttled calls with one backoff delay per retry and surfaces
the 429 failure. -/
theorem fetchWithRetryGo_const429 (jitter : Nat → Nat) (days : Days) :
    ∀ fuel attempt idx,
      fetchWithRetryGo (fun _ => .err (some 429)) jitter days fuel attempt idx
        = ⟨.error (some 429), List.replicate (fuel + 1) ⟨.throttled, days⟩,
           (List.range' attempt fuel).map (fun t => min (500 * t) 8000 + jitter t),
           idx + fuel + 1⟩ := by
  intro fuel
  induction fuel with
  | zero =>
    intro attempt idx
    simp [fetchWithRetryGo, fetchFinalFailure, retriable]
  | succ f ih =>
    intro attempt idx
    simp only [fetchWithRetryGo, retriable, ih, List.range']
    simp [List.replicate_succ]
    omega

/-- Every call `fetchWithRetryGo` issues goes through the throttled
transport. -/
theorem fetchWithRetryGo_all_throttled (oracle : Nat → UpResult)
    (jitter : Nat → Nat) (days : Days) :
    ∀ fuel attempt idx c,
      c ∈ (fetchWithRetryGo oracle jitter days fuel attempt idx).calls →
      c.transport = Transport.throttled := by
  intro fuel
  induction fuel with
  | zero =>
    intro attempt idx c hc
    rcases h : oracle idx with prices | status
    · simp [fetchWithRetryGo, h] at hc
      simp [hc]
    · simp only [fetchWithRetryGo, h] at hc
      exact fetchFinalFailure_all_throttled oracle days status idx c hc
  | succ f ih =>
    intro attempt idx c hc
    rcases h : oracle idx with prices | status
    · simp [fetchWithRetryGo, h] at hc
      simp [hc]
    · rcases hr : retriable status with _ | _
      · simp only [fetchWithRetryGo, h, hr, Bool.false_eq_true, if_false] at hc
        exact fetchFinalFailure_all_throttled oracle days status idx c hc
      · simp only [fetchWithRetryGo, h, hr, if_true, List.mem_cons] at hc
        rcases hc with hc | hc
        · simp [hc]
        · exact ih (attempt + 1) (idx + 1) c hc

/-- Claim C5: `fetchWithRetry` retries exactly on 429/missing-status
failures and never on other statuses; against a constant-429 upstream the
request is attempted exactly 30 times, each retry preceded by a delay of
`min(500 * attempt, 8000)` plus the sampled jitter, each delay at most
8000 + 300 ms when the jitter stays below its 300 ms bound. -/
theorem fetchWithRetry_retry_policy :
    (∀ jitter days idx,
        (fetchWithRetry (fun _ => .err (some 429)) jitter days 1 idx).calls.length = 30
      ∧ (fetchWithRetry (fun _ => .err (some 429)) jitter days 1 idx).result
          = .error (some 429)
      ∧ (fetchWithRetry (fun _ => .err (some 429)) jitter days 1 idx).delays
          = (List.range' 1 29).map (fun t => min (500 * t) 8000 + jitter t))
  ∧ (∀ jitter days idx, (∀ t, jitter t ≤ 300) →
      ∀ d ∈ (fetchWithRetry (fun _ => .err (some 429)) jitter days 1 idx).delays,
        d ≤ 8300)
  ∧ (∀ oracle jitter days attempt idx s, oracle idx = .err (some s) → s ≠ 429 →
        (fetchWithRetry oracle jitter days attempt idx).delays = []
      ∧ ((s = 404 ∧ days = .d365) ∨
          fetchWithRetry oracle jitter days attempt idx
            = ⟨.error (some s), [⟨.throttled, days⟩], [], idx + 1⟩))
  ∧ (∀ oracle jitter days attempt idx, oracle idx = .err none → attempt < 30 →
        (fetchWithRetry oracle jitter days attempt idx).delays.head?
          = some (min (500 * attempt) 8000 + jitter attempt)) := by
  refine ⟨?_, ?_, ?_, ?_⟩
  · intro jitter days idx
    rw [fetchWithRetry, fetchWithRetryGo_const429]
    refine ⟨by simp, rfl, rfl⟩
  · intro jitter days idx hj d hd
    rw [fetchWithRetry, fetchWithRetryGo_const429] at hd
    simp only [List.mem_map] at hd
    obtain ⟨t, ht, rfl⟩ := hd
    have h1 : min (500 * t) 8000 ≤ 8000 := min_le_right _ _
    have h2 := hj t
    omega
  · intro oracle jitter days attempt idx s h hs
    have hr : retriable (some s) = false := by
      simp [retriable]
      omega
    have hred : fetchWithRetry oracle jitter days attempt idx
        = fetchFinalFailure oracle days (some s) idx := by
      rcases hfuel : 30 - attempt with _ | f <;>
      · rw [fetchWithRetry, hfuel]
        simp [fetchWithRetryGo, h, hr]
    rw [hred]
    exact ⟨fetchFinalFailure_delays oracle days (some s) idx,
      (fetchFinalFailure_cases oracle days s idx).imp id (fun h2 => h2)⟩
  · intro oracle jitter days attempt idx h hlt
    have hfuel : 30 - attempt = (29 - attempt) + 1 := by omega
    rw [fetchWithRetry, hfuel]
    simp [fetchWithRetryGo, h, retriable]

/-- Claim C5 witness: concrete runs of the retrying fetcher. -/
theorem fetchWithRetry_retry_policy_witness :
    (fetchWithRetry (fun _ => .err (some 429)) (fun _ => 0) Days.d365 1 0).calls.length = 30
  ∧ (500 : Nat) ≤ 8300
  ∧ (fetchWithRetry (fun _ => .err (some 500)) (fun _ => 0) Days.d365 1 0).delays = []
  ∧ (fetchWithRetry (fun _ => .err none) (fun _ => 0) Days.d365 1 0).delays.head?
      = some 500 := by
  refine ⟨(fetchWithRetry_retry_policy.1 (fun _ => 0) Days.d365 0).1,
          fetchWithRetry_retry_policy.2.1 (fun _ => 0) Days.d365 0
            (fun t => Nat.zero_le 300) 500 (by decide),
          (fetchWithRetry_retry_policy.2.2.1 (fun _ => .err (some 500)) (fun _ => 0)
            Days.d365 1 0 500 rfl (by omega)).1,
          ?_⟩
  have h := fetchWithRetry_retry_policy.2.2.2 (fun _ => .err none) (fun _ => 0)
    Days.d365 1 0 rfl (by omega)
  simpa using h

/-- Claim C7: when a one-year-range fetch reaches a 404 failure, exactly
one substituted `days=max` call is made — regardless of the attempt
counter, so it is not charged against the retry ceiling — and its success
is surfaced while its failure propagates the original 404. -/
theorem fetchWithRetry_404_fallback :
    ∀ oracle jitter attempt idx, oracle idx = .err (some 404) →
      (fetchWithRetry oracle jitter .d365 attempt idx).calls
          = [⟨.throttled, .d365⟩, ⟨.throttled, .dmax⟩]
    ∧ (fetchWithRetry oracle jitter .d365 attempt idx).delays = []
    ∧ (∀ prices, oracle (idx + 1) = .ok prices →
        (fetchWithRetry oracle jitter .d365 attempt idx).result = .ok prices)
    ∧ (∀ s, oracle (idx + 1) = .err s →
        (fetchWithRetry oracle jitter .d365 attempt idx).result
          = .error (some 404)) := by
  intro oracle jitter attempt idx h
  have hr : retriable (some 404) = false := by decide
  have hred : fetchWithRetry oracle jitter .d365 attempt idx
      = fetchFinalFailure oracle .d365 (some 404) idx := by
    rcases hfuel : 30 - attempt with _ | f <;>
    · rw [fetchWithRetry, hfuel]
      simp [fetchWithRetryGo, h, hr]
  rw [hred]
  simp only [fetchFinalFailure]
  rcases h2 : oracle (idx + 1) with p2 | s2 <;> simp [h2]

/-- Claim C7 witness: a run where both the one-year call and the
substituted call answer 404, at the retry ceiling. -/
theorem fetchWithRetry_404_fallback_witness :
    (fetchWithRetry (fun _ => .err (some 404)) (fun _ => 0) .d365 30 0).calls
        = [⟨.throttled, .d365⟩, ⟨.throttled, .dmax⟩]
  ∧ (fetchWithRetry (fun _ => .err (some 404)) (fun _ => 0) .d365 30 0).result
        = .error (some 404) := by
  refine ⟨(fetchWithRetry_404_fallback (fun _ => .err (some 404)) (fun _ => 0) 30 0 rfl).1,
          (fetchWithRetry_404_fallback (fun _ => .err (some 404)) (fun _ => 0) 30 0 rfl).2.2.2
            (some 404) rfl⟩

/-- Claim C3 counterexample: the snapshot refresh issues its upstream call
directly via `axios.get`, not through the throttled transport. -/
theorem snapshot_refresh_unthrottled :
    (fetchCoinData true 0 (.ok []) ⟨none, 0, none⟩).calls = [Transport.direct]
  ∧ Transport.direct ≠ Transport.throttled := ⟨rfl, by decide⟩

/-- Claim C3 (amended): calls issued by `fetchWithRetry` — initial call,
retries, and its internal 404 fallback — all go through the throttled
transport, which waits `max(0, 3000 - (now - last_call_at))` and updates
`last_call_at` to the post-wait time, so a throttled call never starts
less than 3000 ms after the previous one; but the snapshot refresh and the
route-level 404 fallback call of `/compare` bypass the throttle. -/
theorem throttle_policy_amended :
    (∀ now lastCall : Int,
        throttleWait now lastCall = max 0 (3000 - (now - lastCall))
      ∧ lastCall + 3000 ≤ (throttledCallTime now lastCall).1
      ∧ (throttledCallTime now lastCall).2 = (throttledCallTime now lastCall).1)
  ∧ (∀ oracle jitter days attempt idx c,
        c ∈ (fetchWithRetry oracle jitter days attempt idx).calls →
        c.transport = Transport.throttled)
  ∧ (fetchCoinData true 0 (.ok []) ⟨none, 0, none⟩).calls = [Transport.direct]
  ∧ (routeCoinFetch (fun _ => .err (some 404)) (fun _ => 0) 0).2.1
      = [⟨.throttled, .d365⟩, ⟨.throttled, .dmax⟩, ⟨.direct, .dmax⟩] := by
  refine ⟨?_, ?_, rfl, by decide⟩
  · intro now lastCall
    refine ⟨rfl, ?_, rfl⟩
    have h := le_max_right (0 : Int) (3000 - (now - lastCall))
    simp only [throttledCallTime, throttleWait, CHART_THROTTLE_MS]
    omega
  · intro oracle jitter days attempt idx c hc
    exact fetchWithRetryGo_all_throttled oracle jitter days _ attempt idx c hc

/-- Claim C3 witness: a concrete throttled call and gap. -/
theorem throttle_policy_amended_witness :
    (⟨Transport.throttled, Days.d365⟩ : Call).transport = Transport.throttled
  ∧ (0 : Int) + 3000 ≤ (throttledCallTime 5 0).1 :=
  ⟨throttle_policy_amended.2.1 (fun _ => .ok []) (fun _ => 0) Days.d365 1 0
      ⟨.throttled, .d365⟩ (by decide),
   (throttle_policy_amended.1 5 0).2.1⟩

/-- Claim C9: with no `force`, a snapshot call inside the TTL serves the
cache with zero upstream calls; past the TTL a caller joins the pending
refresh (zero additional upstream calls) when one is in flight, and
otherwise starts exactly one upstream refresh call. -/
theorem snapshot_ttl :
    (∀ now st c up, st.cache = some c → now - st.lastFetch < CACHE_DURATION →
        fetchCoinData false now up st = ⟨.ok c, st, []⟩)
  ∧ (∀ now st p up, st.fetchPromise = some p → CACHE_DURATION ≤ now - st.lastFetch →
        fetchCoinData false now up st = ⟨p, st, []⟩)
  ∧ (∀ now st up, st.fetchPromise = none → CACHE_DURATION ≤ now - st.lastFetch →
        (fetchCoinData false now up st).calls = [Transport.direct]) := by
  refine ⟨?_, ?_, ?_⟩
  · intro now st c up hc hlt
    rw [fetchCoinData, if_pos ⟨rfl, by simp [hc], hlt⟩]
    simp [hc]
  · intro now st p up hp hge
    rw [fetchCoinData, if_neg (fun h => absurd h.2.2 (Nat.not_lt.mpr hge))]
    simp [snapRefresh, hp]
  · intro now st up hp hge
    rw [fetchCoinData, if_neg (fun h => absurd h.2.2 (Nat.not_lt.mpr hge))]
    cases up with
    | ok rows =>
      cases hnr : normalizeRows rows with
      | ok nr => simp [snapRefresh, hp, hnr]
      | error e =>
        cases hc : st.cache with
        | some c => simp [snapRefresh, hp, hnr, hc]
        | none => simp [snapRefresh, hp, hnr, hc]
    | error e =>
      cases hc : st.cache with
      | some c => simp [snapRefresh, hp, hc]
      | none => simp [snapRefresh, hp, hc]

/-- Claim C9 witness: 14 minutes after a refresh the cache is served with
no upstream call; at 16 minutes a join issues no call and a fresh start
issues exactly one. -/
theorem snapshot_ttl_witness :
    fetchCoinData false 840000 (.ok []) stFresh = ⟨.ok [], stFresh, []⟩
  ∧ fetchCoinData false 960000 (.ok []) stJoin = ⟨.ok [], stJoin, []⟩
  ∧ (fetchCoinData false 960000 (.error ()) stFresh).calls = [Transport.direct] :=
  ⟨snapshot_ttl.1 840000 stFresh [] (.ok []) rfl (by decide),
   snapshot_ttl.2.1 960000 stJoin (.ok []) (.ok []) rfl (by decide),
   snapshot_ttl.2.2 960000 stFresh (.error ()) rfl (by decide)⟩

/-- Claim C10 counterexample: a single malformed (null) row makes the
whole normalization throw, so the refresh aborts — the cache keeps its old
value and `lastFetch` is not advanced — instead of completing with the
rows normalized. -/
theorem null_row_aborts_refresh :
    normalizeRows [goodRow, Js.null] = .error ()
  ∧ (fetchCoinData false (16 * 60 * 1000) (.ok [goodRow, Js.null])
        ⟨some [], 0, none⟩).state.cache = some []
  ∧ (fetchCoinData false (16 * 60 * 1000) (.ok [goodRow, Js.null])
        ⟨some [], 0, none⟩).state.lastFetch = 0 := ⟨rfl, rfl, rfl⟩

/-- Claim C10 (amended): rows that are objects are always normalized
without a throw, with missing numeric fields becoming null; but a row that
is `null` itself makes the whole refresh throw, in which case the old
cache (when present) is kept and returned instead of being replaced. -/
theorem normalize_rows_amended :
    (∀ fields : List (String × Js),
        ∃ r, normalizeRow (Js.obj fields) = .ok r
          ∧ ((∀ p ∈ fields, p.1 ≠ "current_price") → r.current_price = Js.null))
  ∧ (∀ rows : List Js, Js.null ∈ rows → ∀ l, normalizeRows rows ≠ .ok l)
  ∧ (∀ now st rows c, st.cache = some c → st.fetchPromise = none →
        (∀ l, normalizeRows rows ≠ .ok l) →
        (fetchCoinData false now (.ok rows) st).state.cache = some c
      ∧ (fetchCoinData false now (.ok rows) st).result = .ok c) := by
  refine ⟨?_, ?_, ?_⟩
  · intro fields
    refine ⟨_, rfl, ?_⟩
    intro hmiss
    show nullish (jsField fields "current_price") = Js.null
    have h1 : fields.reverse.find? (fun p => p.1 == "current_price") = none := by
      rw [List.find?_eq_none]
      intro p hp
      simpa using hmiss p (List.mem_reverse.mp hp)
    simp [jsField, h1, nullish]
  · intro rows
    induction rows with
    | nil => intro hmem; cases hmem
    | cons r rest ih =>
      intro hmem l hok
      rcases List.mem_cons.mp hmem with h1 | h1
      · have hr : r = Js.null := h1.symm
        subst hr
        have hred : normalizeRows (Js.null :: rest) = .error () := rfl
        rw [hred] at hok
        exact Except.noConfusion hok
      · cases hr : normalizeRow r with
        | error e =>
          have hred : normalizeRows (r :: rest) = .error e := by
            simp [normalizeRows, hr]
          rw [hred] at hok
          exact Except.noConfusion hok
        | ok nr =>
          cases hrest : normalizeRows rest with
          | error e =>
            have hred : normalizeRows (r :: rest) = .error e := by
              simp [normalizeRows, hr, hrest]
            rw [hred] at hok
            exact Except.noConfusion hok
          | ok nrs => exact ih h1 nrs hrest
  · intro now st rows c hc hp hbad
    by_cases hfresh : false = false ∧ st.cache.isSome = true
        ∧ now - st.lastFetch < CACHE_DURATION
    · rw [fetchCoinData, if_pos hfresh]
      exact ⟨hc, by simp [hc]⟩
    · rw [fetchCoinData, if_neg hfresh]
      cases hnr : normalizeRows rows with
      | ok l => exact absurd hnr (hbad l)
      | error e => constructor <;> simp [snapRefresh, hp, hnr, hc]

/-! ### The compare route: single-flight lock and failure paths -/

/-- Claim C1: evaluation at the failing input.  After the first `/compare`
fetch settles, its `compareLocks` entry is still installed (nothing ever
deletes it, unlike `fetchPromise`, which the snapshot refresh clears in
`finally`); a second request for the same pair arriving after the 60 s TTL
has expired issues zero upstream calls and receives the settled promise's
old result instead of starting a new refresh — the cache is never
refreshed again. -/
theorem compareLocks_leak :
    (lookupKey "bitcoin_ethereum" cmpOkRun1.2.1.compareLocks).isSome = true
  ∧ COMPARE_CACHE_DURATION ≤ 61000 - 0
  ∧ cmpOkRun2.2.2 = []
  ∧ cmpOkRun2.1 = cmpOkRun1.1
  ∧ cmpOkRun2.2.1.compareCache = cmpOkRun1.2.1.compareCache
  ∧ (fetchCoinData true 0 (.ok []) ⟨none, 0, none⟩).state.fetchPromise = none :=
  ⟨by decide, by decide, by decide, by decide, by decide, rfl⟩

/-- Claim C2 counterexample: the caller that starts the failing refresh
gets the well-formed placeholder, but a caller that joins a refresh that
fails receives a 500 error object, not a PairResult. -/
theorem compare_join_failure_errobj :
    cmpErrRun1.1 = Response.ok (safePlaceholder "bitcoin" "ethereum")
  ∧ cmpErrRun2.1 = Response.errObj "Failed to fetch comparison data" := by
  constructor <;> decide

/-- Any `/compare` request that does not join an existing lock answers
with a well-formed result object, whatever the upstream does. -/
theorem compareMiss_isOk (oracle : Nat → UpResult) (jitter : Nat → Nat) (now : Nat)
    (coin1 coin2 key : String) (st : CmpState)
    (hlock : lookupKey key st.compareLocks = none) :
    ((compareMiss oracle jitter now coin1 coin2 key st).1).isOk = true := by
  rcases hrun : comparePromiseRun oracle jitter coin1 coin2 st.callIdx with ⟨res, cs, i2⟩
  cases res with
  | ok r => simp [compareMiss, hlock, hrun, Response.isOk]
  | error e =>
    cases hc2 : lookupKey key st.compareCache with
    | some td =>
      rcases td with ⟨ts, d⟩
      simp [compareMiss, hlock, hrun, hc2, Response.isOk]
    | none => simp [compareMiss, hlock, hrun, hc2, Response.isOk]

/-- Claim C2 (amended): every `getComparison` caller that does not join an
in-flight refresh receives a well-formed PairResult (fresh,
stale-with-warning, or placeholder) even when the pair fetch fails; a
caller that joins a refresh whose fetch fails receives a 500 error
response instead (and a snapshot refresh with no prior cache propagates
its failure). -/
theorem compare_nonjoin_always_ok :
    ∀ oracle jitter now coin1 coin2 st,
      lookupKey (pairKey coin1 coin2) st.compareLocks = none →
      ((compareHandler oracle jitter now coin1 coin2 st).1).isOk = true := by
  intro oracle jitter now coin1 coin2 st hlock
  cases hcache : lookupKey (pairKey coin1 coin2) st.compareCache with
  | some td =>
    rcases td with ⟨ts, d⟩
    by_cases hfr : now - ts < COMPARE_CACHE_DURATION
    · simp [compareHandler, hcache, hfr, Response.isOk]
    · simpa [compareHandler, hcache, hfr] using
        compareMiss_isOk oracle jitter now coin1 coin2 (pairKey coin1 coin2) st hlock
  | none =>
    simpa [compareHandler, hcache] using
      compareMiss_isOk oracle jitter now coin1 coin2 (pairKey coin1 coin2) st hlock

/-- Claim C2 witness: a failing run from the empty state still answers a
well-formed result. -/
theorem compare_nonjoin_always_ok_witness :
    ((compareHandler errOracle jitter0 0 "bitcoin" "ethereum" cmpSt0).1).isOk = true :=
  compare_nonjoin_always_ok errOracle jitter0 0 "bitcoin" "ethereum" cmpSt0 rfl

/-- The comparison `charListLtB` is asymmetric. -/
theorem charListLtB_asymm : ∀ a b : List Char,
    charListLtB a b = true → charListLtB b a = false := by
  intro a
  induction a with
  | nil =>
    intro b h
    cases b with
    | nil => simp [charListLtB] at h
    | cons y ys => simp [charListLtB]
  | cons x xs ih =>
    intro b h
    cases b with
    | nil => simp [charListLtB] at h
    | cons y ys =>
      simp only [charListLtB] at h ⊢
      by_cases hxy : x.toNat < y.toNat
      · rw [if_neg (Nat.lt_asymm hxy), if_pos hxy]
      · by_cases hyx : y.toNat < x.toNat
        · rw [if_neg hxy, if_pos hyx] at h
          cases h
        · rw [if_neg hxy, if_neg hyx] at h
          rw [if_neg hyx, if_neg hxy]
          exact ih ys h

/-- The comparison `charListLtB` is total: two mutually non-smaller lists are equal. -/
theorem charListLtB_total : ∀ a b : List Char,
    charListLtB a b = false → charListLtB b a = false → a = b := by
  intro a
  induction a with
  | nil =>
    intro b h1 h2
    cases b with
    | nil => rfl
    | cons y ys => simp [charListLtB] at h1
  | cons x xs ih =>
    intro b h1 h2
    cases b with
    | nil => simp [charListLtB] at h2
    | cons y ys =>
      simp only [charListLtB] at h1 h2
      by_cases hxy : x.toNat < y.toNat
      · rw [if_pos hxy] at h1
        cases h1
      · by_cases hyx : y.toNat < x.toNat
        · rw [if_pos hyx] at h2
          cases h2
        · have hvx : x = y := by
            apply Char.ext
            apply UInt32.ext
            have : x.toNat = y.toNat := by omega
            simpa [Char.toNat] using this
          rw [if_neg hxy, if_neg hyx] at h1
          rw [if_neg hyx, if_neg hxy] at h2
          rw [hvx, ih ys h1 h2]

/-- The sorted pair key does not depend on the argument order. -/
theorem pairKey_comm (a b : String) : pairKey a b = pairKey b a := by
  rw [pairKey, pairKey]
  cases hba : strLtB b a with
  | true =>
    have hab : strLtB a b = false := charListLtB_asymm b.data a.data hba
    simp [hab]
  | false =>
    cases hab : strLtB a b with
    | true => simp [hab]
    | false =>
      have hd : a = b := String.ext (charListLtB_total a.data b.data hab hba)
      rw [hd]

/-- Claim C4 counterexample: the `/compare` key building does not fold
case — an upper-case variant of the same id maps to a different cache
slot. -/
theorem pairKey_case_sensitive :
    pairKey "BITCOIN" "ethereum" ≠ pairKey "bitcoin" "ethereum"
  ∧ pairKey "BITCOIN" "ethereum" = "BITCOIN_ethereum"
  ∧ pairKey "bitcoin" "ethereum" = "bitcoin_ethereum" := by
  refine ⟨by decide, by decide, by decide⟩

/-- Claim C4 (amended): the pair key is order-independent (lexicographic
sort and join), so swapped arguments hit the same cache slot — shown
abstractly and on a concrete run where the swapped request is served from
the cache written by the first request with zero upstream calls — but ids
are used exactly as given (no lower-casing), so case variants of the same
ids map to different slots. -/
theorem pairKey_order_independent :
    (∀ a b : String, pairKey a b = pairKey b a)
  ∧ pairKey "ethereum" "bitcoin" = "bitcoin_ethereum"
  ∧ (lookupKey (pairKey "ethereum" "bitcoin") cmpOkRun1.2.1.compareCache).isSome = true
  ∧ (compareHandler okOracle jitter0 30000 "ethereum" "bitcoin" cmpOkRun1.2.1).2.2 = []
  ∧ (compareHandler okOracle jitter0 30000 "ethereum" "bitcoin" cmpOkRun1.2.1).1
      = cmpOkRun1.1 :=
  ⟨pairKey_comm, by decide, by decide, by decide, by decide⟩

/-! ### Lemmas about the timeframe aligner -/

/-- Insertion-order Map keys are keys of the underlying series. -/
theorem keysFirst_subset :
    ∀ (l : List (Nat × Int)) (t : Nat), t ∈ keysFirst l → t ∈ l.map Prod.fst := by
  intro l
  induction l with
  | nil => intro t h; cases h
  | cons p rest ih =>
    intro t h
    rcases p with ⟨a, v⟩
    simp only [keysFirst, List.mem_cons] at h
    rcases h with h | h
    · simp [h]
    · have hm := List.mem_of_mem_filter h
      simp only [List.map_cons, List.mem_cons]
      exact Or.inr (ih t hm)

/-- For a series with no duplicate timestamps, the Map keys are exactly
the timestamps in series order. -/
theorem keysFirst_nodup_eq :
    ∀ l : List (Nat × Int), (l.map Prod.fst).Nodup →
      keysFirst l = l.map Prod.fst := by
  intro l
  induction l with
  | nil => intro h; rfl
  | cons p rest ih =>
    intro h
    rcases p with ⟨a, v⟩
    simp only [List.map_cons, List.nodup_cons] at h
    obtain ⟨ha, hrest⟩ := h
    simp only [keysFirst, List.map_cons]
    rw [ih hrest]
    congr 1
    apply List.filter_eq_self.mpr
    intro s hs
    have hne : s ≠ a := fun hsa => ha (hsa ▸ hs)
    simpa using hne

/-- Map lookup at the head key of a duplicate-free series. -/
theorem mapGetLast_cons_self (a : Nat) (v : Int) (rest : List (Nat × Int))
    (ha : a ∉ rest.map Prod.fst) : mapGetLast ((a, v) :: rest) a = some v := by
  rw [mapGetLast, List.reverse_cons, List.find?_append]
  have h1 : rest.reverse.find? (fun p => p.1 == a) = none := by
    rw [List.find?_eq_none]
    intro p hp
    have hm : p.1 ∈ rest.map Prod.fst :=
      List.mem_map_of_mem Prod.fst (List.mem_reverse.mp hp)
    simp only [beq_iff_eq]
    intro he
    exact ha (he ▸ hm)
  rw [h1]
  simp

/-- Map lookup below a head with a different key. -/
theorem mapGetLast_cons_ne (a s : Nat) (v : Int) (rest : List (Nat × Int))
    (hne : s ≠ a) : mapGetLast ((a, v) :: rest) s = mapGetLast rest s := by
  rw [mapGetLast, mapGetLast, List.reverse_cons, List.find?_append]
  cases hf : rest.reverse.find? (fun p => p.1 == s) with
  | some p => simp [hf]
  | none =>
    have h2 : (a == s) = false := by
      simpa using fun h => hne h.symm
    simp [hf, List.find?, h2]

/-- Mapping the Map lookup over the filtered key sequence of a
duplicate-free series recovers filtering the series itself. -/
theorem filter_map_get (q : Nat → Bool) :
    ∀ l : List (Nat × Int), (l.map Prod.fst).Nodup →
      ((l.map Prod.fst).filter q).map (fun t => (t, (mapGetLast l t).getD 0))
        = l.filter (fun p => q p.1) := by
  intro l
  induction l with
  | nil => intro h; rfl
  | cons p rest ih =>
    intro h
    rcases p with ⟨a, v⟩
    simp only [List.map_cons, List.nodup_cons] at h
    obtain ⟨ha, hrest⟩ := h
    have hmap : ∀ t ∈ (rest.map Prod.fst).filter q,
        (t, (mapGetLast ((a, v) :: rest) t).getD 0)
          = (t, (mapGetLast rest t).getD 0) := by
      intro t ht
      have htm : t ∈ rest.map Prod.fst := List.mem_of_mem_filter ht
      have hne : t ≠ a := fun he => ha (he ▸ htm)
      rw [mapGetLast_cons_ne a t v rest hne]
    cases hq : q a with
    | true =>
      simp only [List.map_cons, List.filter_cons, hq, if_true, List.map_cons]
      rw [mapGetLast_cons_self a v rest ha]
      rw [List.map_congr_left hmap, ih hrest]
      rfl
    | false =>
      simp only [List.map_cons, List.filter_cons, hq, Bool.false_eq_true, if_false]
      rw [List.map_congr_left hmap, ih hrest]

/-- The intersection of two strictly ascending key sequences is the same
list whichever side it is filtered from. -/
theorem filter_mem_comm (k1 k2 : List Nat)
    (h1 : List.Sorted (· < ·) k1) (h2 : List.Sorted (· < ·) k2) :
    k1.filter (fun t => k2.contains t) = k2.filter (fun t => k1.contains t) := by
  haveI : IsAntisymm Nat (· < ·) := ⟨fun a b ha hb => absurd hb (Nat.lt_asymm ha)⟩
  have hs1 : List.Sorted (· < ·) (k1.filter fun t => k2.contains t) := h1.filter _
  have hs2 : List.Sorted (· < ·) (k2.filter fun t => k1.contains t) := h2.filter _
  apply List.eq_of_perm_of_sorted ?_ hs1 hs2
  rw [List.perm_ext_iff_of_nodup hs1.nodup hs2.nodup]
  intro t
  simp [List.mem_filter]
  tauto

/-- Claim C6: `alignTimeframes` returns equally long outputs with
identical timestamp sequences; absent inputs are passed through
unmodified; for ascending, duplicate-free inputs each output is exactly
its input restricted to the timestamps present in both inputs, in
ascending order; and the spec's concrete example evaluates as stated. -/
theorem alignTimeframes_spec :
    (∀ l1 l2 : List (Nat × Int),
        ((alignTimeframes (some l1) (some l2)).1.getD []).length
          = ((alignTimeframes (some l1) (some l2)).2.getD []).length
      ∧ ((alignTimeframes (some l1) (some l2)).1.getD []).map Prod.fst
          = ((alignTimeframes (some l1) (some l2)).2.getD []).map Prod.fst)
  ∧ (∀ s1 s2 : Option (List (Nat × Int)), s1 = none ∨ s2 = none →
        alignTimeframes s1 s2 = (s1, s2))
  ∧ (∀ l1 l2 : List (Nat × Int),
        List.Sorted (· < ·) (l1.map Prod.fst) →
        List.Sorted (· < ·) (l2.map Prod.fst) →
        alignTimeframes (some l1) (some l2)
          = (some (l1.filter fun p => (l2.map Prod.fst).contains p.1),
             some (l2.filter fun p => (l1.map Prod.fst).contains p.1)))
  ∧ alignTimeframes (some [(1, 10), (2, 11), (3, 12)])
        (some [(2, 20), (3, 21), (4, 22)])
      = (some [(2, 11), (3, 12)], some [(2, 20), (3, 21)]) := by
  refine ⟨?_, ?_, ?_, by decide⟩
  · intro l1 l2
    constructor
    · simp [alignTimeframes]
    · simp [alignTimeframes, List.map_map, Function.comp]
  · intro s1 s2 h
    rcases h with rfl | rfl
    · cases s2 <;> rfl
    · cases s1 <;> rfl
  · intro l1 l2 h1 h2
    have nd1 : (l1.map Prod.fst).Nodup := h1.nodup
    have nd2 : (l2.map Prod.fst).Nodup := h2.nodup
    simp only [alignTimeframes]
    rw [keysFirst_nodup_eq l1 nd1]
    rw [filter_map_get (fun t => (l2.map Prod.fst).contains t) l1 nd1]
    rw [filter_mem_comm (l1.map Prod.fst) (l2.map Prod.fst) h1 h2]
    rw [filter_map_get (fun t => (l1.map Prod.fst).contains t) l2 nd2]

/-- Claim C6 witness: the restriction property applied at the spec's
concrete example. -/
theorem alignTimeframes_spec_witness :
    alignTimeframes (some [(1, 10), (2, 11), (3, 12)])
        (some [(2, 20), (3, 21), (4, 22)])
      = (some ([(1, 10), (2, 11), (3, 12)].filter
            fun p => ([(2, 20), (3, 21), (4, 22)].map Prod.fst).contains p.1),
         some ([(2, 20), (3, 21), (4, 22)].filter
            fun p => ([(1, 10), (2, 11), (3, 12)].map Prod.fst).contains p.1)) :=
  alignTimeframes_spec.2.2.1 _ _ (by decide) (by decide)

/-- Claim C8 counterexample: a partial single-series result (coin1 fetch
failed, coin2 succeeded) is returned — and cached — with no warning at
all. -/
theorem partial_result_has_no_warning :
    (compareHandler mixedOracle jitter0 0 "bitcoin" "ethereum" cmpSt0).1
      = Response.ok ⟨"bitcoin", "ethereum", [("ethereum", [(1, 10)])], none⟩ := by
  decide

/-- Claim C8 (amended): results built by the fetch path — fully successful
or partial single-series — never carry a warning; the stale-cache fallback
and the placeholder are the only responses that do. -/
theorem warning_on_degraded_paths :
    (∀ coin1 coin2 data1 data2 r,
        mkCompareResult coin1 coin2 data1 data2 = .ok r → r.warning = none)
  ∧ (∀ coin1 coin2, (safePlaceholder coin1 coin2).warning
        = some "No data available — using placeholder")
  ∧ (∀ oracle jitter now coin1 coin2 st ts d e cs i2,
        lookupKey (pairKey coin1 coin2) st.compareCache = some (ts, d) →
        COMPARE_CACHE_DURATION ≤ now - ts →
        lookupKey (pairKey coin1 coin2) st.compareLocks = none →
        comparePromiseRun oracle jitter coin1 coin2 st.callIdx = (.error e, cs, i2) →
        (compareHandler oracle jitter now coin1 coin2 st).1
          = Response.ok
              { d with warning := some "Served stale cached data due to error" }) := by
  refine ⟨?_, fun _ _ => rfl, ?_⟩
  · intro coin1 coin2 data1 data2 r h
    cases data1 with
    | none =>
      cases data2 with
      | none => exact Except.noConfusion h
      | some l2 =>
        injection h with h2
        rw [← h2]
    | some l1 =>
      cases data2 with
      | none =>
        injection h with h2
        rw [← h2]
      | some l2 =>
        injection h with h2
        rw [← h2]
  · intro oracle jitter now coin1 coin2 st ts d e cs i2 hcache hstale hlock hrun
    have hfr : ¬ (now - ts < COMPARE_CACHE_DURATION) := Nat.not_lt.mpr hstale
    simp only [compareHandler, hcache]
    rw [if_neg hfr]
    simp only [compareMiss, hlock, hrun, hcache]

/-- Claim C8 witness: concrete degraded and non-degraded results. -/
theorem warning_on_degraded_paths_witness :
    (compareHandler errOracle jitter0 61000 "bitcoin" "ethereum" cmpStStale).1
      = Response.ok
          { demoResult with warning := some "Served stale cached data due to error" }
  ∧ ({ coin1 := "a", coin2 := "b", data := [("b", [(1, 2)])],
        warning := none } : PairResult).warning = none
  ∧ (safePlaceholder "bitcoin" "ethereum").warning
      = some "No data available — using placeholder" := by
  refine ⟨?_, ?_, warning_on_degraded_paths.2.1 "bitcoin" "ethereum"⟩
  · exact warning_on_degraded_paths.2.2 errOracle jitter0 61000 "bitcoin" "ethereum"
      cmpStStale 0 demoResult () [⟨.throttled, .d365⟩, ⟨.throttled, .d365⟩] 2
      (by decide) (by decide) rfl (by decide)
  · exact warning_on_degraded_paths.1 "a" "b" none (some [(1, 2)]) _ rfl

/-- Claim C10 witness: concrete instances of the amended claim. -/
theorem normalize_rows_amended_witness :
    isOkE (normalizeRow (Js.obj [("id", Js.str "x")])) = true
  ∧ normalizeRows [Js.null] ≠ .ok []
  ∧ (fetchCoinData false 960000 (.ok [Js.null]) ⟨some [], 0, none⟩).state.cache
      = some [] := by
  refine ⟨?_, ?_, ?_⟩
  · obtain ⟨r, hr, h2⟩ := normalize_rows_amended.1 [("id", Js.str "x")]
    rw [hr]
    rfl
  · exact normalize_rows_amended.2.1 [Js.null] (by simp) []
  · exact (normalize_rows_amended.2.2 960000 ⟨some [], 0, none⟩ [Js.null] [] rfl rfl
      (normalize_rows_amended.2.1 [Js.null] (by simp))).1
